import Mathlib

/-!
Verification of the rosbag container reader/writer core
(`src/roswire/definitions/bag.py` and `src/roswire/bag/writer.py`).

Modelling conventions:
* Python `bytes` values are `List Nat` (each element a byte value).
* Python `str` values are represented by their UTF-8 byte sequences
  (`List Nat`); `decode_str` is therefore the identity on byte lists.
* Fallible operations return `Except BagError`; distinct Python failure
  modes (struct.error on a short buffer, AssertionError, KeyError on a
  dict, IndexError on a tuple, ValueError from an enum constructor,
  NotImplementedError) are distinguished by constructor.
* File and `BytesIO` objects are a byte list plus a cursor (`ByteStream`);
  `read` returns at most the requested number of bytes and never moves the
  cursor past the end, while `seek` may move it anywhere, as in CPython.
-/

namespace Roswire

/-- Modelled from the spec: `definitions/base.py` (the `Time` class) is not
in the source tree.  The spec describes a two-`u32` time value
(seconds, nanoseconds) compared lexicographically. -/
structure Time where
  secs : Nat
  nsecs : Nat
  deriving DecidableEq, Repr

/-- Lexicographic strict order on `Time`, mirroring the attrs-generated
tuple comparison `(secs, nsecs) < (secs, nsecs)`. -/
def Time.lt (a b : Time) : Bool :=
  decide (a.secs < b.secs) || (decide (a.secs = b.secs) && decide (a.nsecs < b.nsecs))

/-- `a <= b` on `Time`, i.e. the negation of `Time.lt b a`. -/
def Time.le (a b : Time) : Bool :=
  !(Time.lt b a)

/-- One entry of the per-connection time index (`IndexEntry` in `bag.py`):
a message time, the absolute position of the owning chunk record, and the
byte offset of the message inside the decompressed chunk. -/
structure IndexEntry where
  time : Time
  pos : Nat
  offset : Nat
  deriving DecidableEq, Repr

/-- The attrs-generated strict order on `IndexEntry`: lexicographic on the
attribute tuple `(time, pos, offset)`.  This is the comparison
`heapq.merge` uses in `_get_entries`. -/
def IndexEntry.lt (a b : IndexEntry) : Bool :=
  Time.lt a.time b.time ||
    (decide (a.time = b.time) &&
      (decide (a.pos < b.pos) ||
        (decide (a.pos = b.pos) && decide (a.offset < b.offset))))

/-- The six record opcodes of the container format (`OpCode` in `bag.py`). -/
inductive OpCode where
  | MESSAGE_DATA
  | HEADER
  | INDEX_DATA
  | CHUNK
  | CHUNK_INFO
  | CONNECTION_INFO
  deriving DecidableEq, Repr

/-- The single-byte value of each opcode. -/
def OpCode.byte : OpCode → Nat
  | .MESSAGE_DATA => 2
  | .HEADER => 3
  | .INDEX_DATA => 4
  | .CHUNK => 5
  | .CHUNK_INFO => 6
  | .CONNECTION_INFO => 7

/-- The `value` of an opcode enum member: a one-byte bytes object. -/
def OpCode.value (c : OpCode) : List Nat :=
  [c.byte]

/-- `OpCode(bytes)` enum lookup: succeeds exactly on the six one-byte
values; anything else raises `ValueError` in Python (here: `none`). -/
def OpCode.ofBytes : List Nat → Option OpCode
  | [2] => some .MESSAGE_DATA
  | [3] => some .HEADER
  | [4] => some .INDEX_DATA
  | [5] => some .CHUNK
  | [6] => some .CHUNK_INFO
  | [7] => some .CONNECTION_INFO
  | _ => none

/-- Chunk compression codecs (`Compression` in `bag.py`). -/
inductive Compression where
  | NONE
  | BZ2
  deriving DecidableEq, Repr

/-- `Compression(str)` enum lookup from the string value. -/
def Compression.ofBytes : List Nat → Option Compression
  | [110, 111, 110, 101] => some .NONE
  | [98, 122, 50] => some .BZ2
  | _ => none

/-- Structured failure modes of the reader and of the codec helpers. -/
inductive BagError where
  | truncated
  | malformedHeader
  | unexpectedOpcode (expected : OpCode) (actual : OpCode)
  | invalidOpcode (value : List Nat)
  | keyError (name : List Nat)
  | assertionFailed
  | indexError
  | valueError
  | notImplemented
  | outOfFuel
  deriving DecidableEq, Repr

/-- Little-endian interpretation of a byte list as a natural number. -/
def leNat : List Nat → Nat
  | [] => 0
  | b :: rest => b + 256 * leNat rest

/-- `n`-byte little-endian encoding of `v` (the behaviour of
`struct.pack` for an in-range unsigned value). -/
def byteLE : Nat → Nat → List Nat
  | 0, _ => []
  | n + 1, v => v % 256 :: byteLE n (v / 256)

/-- `encode_uint32` from `encode.py`: `struct.pack` with format `<I`. -/
def encode_uint32 (v : Nat) : List Nat :=
  byteLE 4 v

/-- `encode_uint64` from `encode.py`: `struct.pack` with format `<Q`. -/
def encode_uint64 (v : Nat) : List Nat :=
  byteLE 8 v

/-- `decode_uint32` from `bag.py`: `struct.unpack` with format `<L`
demands exactly four bytes. -/
def decode_uint32 (v : List Nat) : Except BagError Nat :=
  if v.length = 4 then .ok (leNat v) else .error .truncated

/-- `decode_uint64` from `bag.py`: `struct.unpack('<LL', v)[0]` demands
exactly eight bytes but returns only the FIRST unpacked 32-bit word,
i.e. the low half of the little-endian 64-bit value. -/
def decode_uint64 (v : List Nat) : Except BagError Nat :=
  if v.length = 8 then .ok (leNat (v.take 4)) else .error .truncated

/-- `decode_time` from `bag.py`: two little-endian `u32` values
(`v[0:4]` and `v[4:8]`); a short buffer fails inside `struct.unpack`. -/
def decode_time (v : List Nat) : Except BagError Time := do
  let s ← decode_uint32 (v.take 4)
  let ns ← decode_uint32 ((v.drop 4).take 4)
  .ok ⟨s, ns⟩

/-- A Python binary file or `BytesIO`: backing bytes plus a cursor. -/
structure ByteStream where
  data : List Nat
  pos : Nat
  deriving DecidableEq, Repr

/-- `read(n)`: returns up to `n` bytes starting at the cursor and
advances the cursor by the number of bytes actually returned. -/
def ByteStream.readN (s : ByteStream) (n : Nat) : List Nat × ByteStream :=
  let r := (s.data.drop s.pos).take n
  (r, ⟨s.data, s.pos + r.length⟩)

/-- `seek(p)`: moves the cursor (possibly past the end of the data). -/
def ByteStream.seek (s : ByteStream) (p : Nat) : ByteStream :=
  ⟨s.data, p⟩

/-- `_read_uint32`: read four bytes and decode them; a short read makes
`struct.unpack` fail. -/
def read_uint32 (s : ByteStream) : Except BagError (Nat × ByteStream) :=
  let (r, s1) := s.readN 4
  match decode_uint32 r with
  | .ok v => .ok (v, s1)
  | .error e => .error e

/-- `_read_time`: read eight bytes and decode them as a `Time`. -/
def read_time (s : ByteStream) : Except BagError (Time × ByteStream) :=
  let (r, s1) := s.readN 8
  match decode_time r with
  | .ok t => .ok (t, s1)
  | .error e => .error e

/-- `_read_sized`: a 4-byte length followed by that many bytes (a short
tail is returned as-is, as `read` does in Python). -/
def read_sized (s : ByteStream) : Except BagError (List Nat × ByteStream) := do
  let (n, s1) ← read_uint32 s
  .ok (s1.readN n)

/-- `_skip_sized` as called WITHOUT a `ptr` argument (the
`_read_header_record` and `_skip_record` call sites): the 4-byte length
read by `self._read_uint32()` and the relative seek both act on the
backing file, i.e. on the same stream.  Note that `_skip_sized(ptr)`
never forwards `ptr` to `_read_uint32`, so when a ptr IS passed the
length still comes from the backing file; that cross-stream variant is
modelled where it occurs, inside `scan_message_aux`. -/
def skip_sized (s : ByteStream) : Except BagError ByteStream := do
  let (n, s1) ← read_uint32 s
  .ok (s1.seek (s1.pos + n))

/-- `_skip_record` (always called without a `ptr` in the reader): skip a
sized header block and a sized data block on the file stream. -/
def skip_record (s : ByteStream) : Except BagError ByteStream := do
  let s1 ← skip_sized s
  skip_sized s1

/-- `bytes.partition(b'\x3d')`: split at the first `=` byte, returning
(before, separator, after); the separator is empty iff no `=` occurs. -/
def partitionEq : List Nat → List Nat × List Nat × List Nat
  | [] => ([], [], [])
  | b :: rest =>
    if b = 61 then ([], [61], rest)
    else
      let (n, sep, v) := partitionEq rest
      (b :: n, sep, v)

/-- The guard `sep == ''` in `_read_header` compares the `bytes` value
`sep` against the `str` literal; in Python a `bytes` never equals a
`str`, so the comparison is `False` for every input. -/
def bytesEqEmptyStr (_sep : List Nat) : Bool :=
  false

/-- Python dict lookup over an insertion-ordered association list where a
repeated key overwrites: the last binding wins. -/
def lookupLast (fields : List (List Nat × List Nat)) (k : List Nat) :
    Option (List Nat) :=
  match fields with
  | [] => none
  | (k1, v1) :: rest =>
    match lookupLast rest k with
    | some v => some v
    | none => if k1 = k then some v1 else none

/-- The field-parsing loop of `_read_header`: repeatedly take a 4-byte
sub-block length, split the sub-block at the first `=`, and record the
(name, value) pair.  The `sep == ''` malformed-header guard can never
fire (bytes-vs-str comparison), so a separator-free sub-block silently
yields the whole block as name and an empty value.  The fuel argument is
the byte count of the block; each iteration consumes at least four
bytes, so it never runs out before the block is exhausted. -/
def parse_fields_aux : Nat → List Nat → Except BagError (List (List Nat × List Nat))
  | _, [] => .ok []
  | 0, _ :: _ => .error .outOfFuel
  | fuel + 1, b :: rest0 => do
    let size ← decode_uint32 ((b :: rest0).take 4)
    let rest := (b :: rest0).drop 4
    let (name, sep, value) := partitionEq (rest.take size)
    if bytesEqEmptyStr sep then
      .error .malformedHeader
    else do
      let fields ← parse_fields_aux fuel (rest.drop size)
      .ok ((name, value) :: fields)

/-- The `while header:` loop body of `_read_header` applied to the bytes
of one field block. -/
def parse_fields (header : List Nat) : Except BagError (List (List Nat × List Nat)) :=
  parse_fields_aux header.length header

/-- Field name `op`. -/
def opName : List Nat := [111, 112]

/-- `_read_header`: read one sized field block from the stream, parse its
fields, and (when an expected opcode is supplied) check the `op` field,
failing with an error naming both the expected and the actual opcode on
a mismatch. -/
def read_header (s : ByteStream) (opExpected : Option OpCode) :
    Except BagError (List (List Nat × List Nat) × ByteStream) := do
  let (block, s1) ← read_sized s
  let fields ← parse_fields block
  match opExpected with
  | none => .ok (fields, s1)
  | some expected =>
    match lookupLast fields opName with
    | none => .error .assertionFailed
    | some opv =>
      match OpCode.ofBytes opv with
      | none => .error (.invalidOpcode opv)
      | some actual =>
        if opv = expected.value then .ok (fields, s1)
        else .error (.unexpectedOpcode expected actual)

/-- One step of `heapq.merge` over lists of `IndexEntry`: pop the
smallest head under the attrs tuple order `IndexEntry.lt`, breaking full
ties in favour of the earliest input (heapq orders its heap items by
`(value, iterator_index)`), and return it with the remaining lists.
Exhausted inputs are dropped.  `none` iff every list is empty. -/
def popMin : List (List IndexEntry) →
    Option (IndexEntry × List (List IndexEntry))
  | [] => none
  | [] :: rest => popMin rest
  | (e :: es) :: rest =>
    match popMin rest with
    | none => some (e, es :: rest)
    | some (e2, rest2) =>
      if IndexEntry.lt e2 e then some (e2, (e :: es) :: rest2)
      else some (e, es :: rest)

/-- Total number of entries across all input lists. -/
def totalLen (ls : List (List IndexEntry)) : Nat :=
  (ls.map List.length).sum

/-- Iterated `popMin`; the fuel equals the total entry count, which
`popMin` decreases by exactly one per step, so it is always enough. -/
def heapq_merge_aux : Nat → List (List IndexEntry) → List IndexEntry
  | 0, _ => []
  | fuel + 1, ls =>
    match popMin ls with
    | none => []
    | some (e, ls1) => e :: heapq_merge_aux fuel ls1

/-- `heapq.merge(*entries)` as used by `_get_entries`. -/
def heapq_merge (ls : List (List IndexEntry)) : List IndexEntry :=
  heapq_merge_aux (totalLen ls) ls

/-- The `time_start and entry.time < time_start` guard: a `Time` object
is always truthy, so this tests only that the bound is present and the
entry is early. -/
def beforeStart (ts : Option Time) (t : Time) : Bool :=
  match ts with
  | none => false
  | some a => Time.lt t a

/-- The `time_end and entry.time > time_end` guard. -/
def afterEnd (te : Option Time) (t : Time) : Bool :=
  match te with
  | none => false
  | some b => Time.lt b t

/-- The `for entry in entries:` loop of `_get_entries`: skip entries
before `time_start`, stop (returning) at the first entry after
`time_end`, yield everything else. -/
def entries_loop (l : List IndexEntry) (ts te : Option Time) :
    List IndexEntry :=
  match l with
  | [] => []
  | e :: rest =>
    if beforeStart ts e.time then entries_loop rest ts te
    else if afterEnd te e.time then []
    else e :: entries_loop rest ts te

/-- How many entries the loop of `_get_entries` pulls from the merged
iterator before it finishes (each examined entry counts as one pull). -/
def entries_pulled (l : List IndexEntry) (ts te : Option Time) : Nat :=
  match l with
  | [] => 0
  | e :: rest =>
    if beforeStart ts e.time then 1 + entries_pulled rest ts te
    else if afterEnd te e.time then 1
    else 1 + entries_pulled rest ts te

/-- `_get_entries`: k-way merge of the selected connections' index lists
followed by the time-window loop. -/
def get_entries (lists : List (List IndexEntry)) (ts te : Option Time) :
    List IndexEntry :=
  entries_loop (heapq_merge lists) ts te

/-- Connection metadata (`ConnectionInfo` in `bag.py`). -/
structure ConnectionInfo where
  conn : Nat
  topic : List Nat
  topic_original : List Nat
  typ : List Nat
  md5sum : List Nat
  message_definition : List Nat
  callerid : Option (List Nat)
  latching : Option (List Nat)
  deriving DecidableEq, Repr

/-- `_get_connections`: `if not topics:` is a truthiness test, so both an
absent filter and an empty collection select every connection; otherwise
keep connections whose topic is in the collection. -/
def get_connections (conns : List ConnectionInfo)
    (topics : Option (List (List Nat))) : List ConnectionInfo :=
  match topics with
  | none => conns
  | some ts => if ts.isEmpty then conns else conns.filter (fun c => ts.contains c.topic)

/-- Per-chunk message count for one connection (`ChunkConnection`). -/
structure ChunkConnection where
  uid : Nat
  count : Nat
  deriving DecidableEq, Repr

/-- Chunk summary (`Chunk` in `bag.py`), assembled from a ChunkInfo
record plus a cross-reference into the chunk region. -/
structure Chunk where
  pos_record : Nat
  pos_data : Nat
  time_start : Time
  time_end : Time
  connections : List ChunkConnection
  compression : Compression
  size_uncompressed : Nat
  size_compressed : Nat
  deriving DecidableEq, Repr

/-- The message value `fetch_message_data_record` builds: only the topic
name and the time; the record payload is not part of it (`BagMessage` in
`bag.py` has exactly these two attributes, with a `# message/data`
placeholder comment where a data field would go). -/
structure BagMessage where
  topic : List Nat
  time : Time
  deriving DecidableEq, Repr

/-- `header[name]` on a decoded field dict: `KeyError` when absent. -/
def pyGet (fields : List (List Nat × List Nat)) (k : List Nat) :
    Except BagError (List Nat) :=
  match lookupLast fields k with
  | some v => .ok v
  | none => .error (.keyError k)

/-- Field name `ver`. -/
def verName : List Nat := [118, 101, 114]

/-- Field name `conn`. -/
def connName : List Nat := [99, 111, 110, 110]

/-- Field name `count`. -/
def countName : List Nat := [99, 111, 117, 110, 116]

/-- Field name `chunk_pos`. -/
def chunkPosName : List Nat := [99, 104, 117, 110, 107, 95, 112, 111, 115]

/-- Field name `start_time`. -/
def startTimeName : List Nat := [115, 116, 97, 114, 116, 95, 116, 105, 109, 101]

/-- Field name `end_time`. -/
def endTimeName : List Nat := [101, 110, 100, 95, 116, 105, 109, 101]

/-- Field name `size`. -/
def sizeName : List Nat := [115, 105, 122, 101]

/-- Field name `compression`. -/
def compressionName : List Nat :=
  [99, 111, 109, 112, 114, 101, 115, 115, 105, 111, 110]

/-- Field name `time`. -/
def timeName : List Nat := [116, 105, 109, 101]

/-- Field name `index_pos`. -/
def indexPosName : List Nat := [105, 110, 100, 101, 120, 95, 112, 111, 115]

/-- Field name `conn_count`. -/
def connCountName : List Nat :=
  [99, 111, 110, 110, 95, 99, 111, 117, 110, 116]

/-- Field name `chunk_count`. -/
def chunkCountName : List Nat :=
  [99, 104, 117, 110, 107, 95, 99, 111, 117, 110, 116]

/-- The `(uid, count)` pair loop of `_read_chunk_info_record`: decode
`count` pairs of `u32`s from the front of `contents`, returning the
pairs and the leftover bytes (which the code then asserts empty). -/
def parse_chunk_connections : Nat → List Nat →
    Except BagError (List ChunkConnection × List Nat)
  | 0, contents => .ok ([], contents)
  | n + 1, contents => do
    let uid ← decode_uint32 (contents.take 4)
    let count ← decode_uint32 ((contents.drop 4).take 4)
    let (rest, leftover) ← parse_chunk_connections n (contents.drop 8)
    .ok (⟨uid, count⟩ :: rest, leftover)

/-- `_read_chunk_info_record`: decode the ChunkInfo field block and the
packed connection counts, then seek to `chunk_pos` to read the Chunk
record's own header (compression, uncompressed size) and the 4-byte
compressed size, and finally restore the cursor to where the ChunkInfo
record ended. -/
def read_chunk_info_record (s : ByteStream) :
    Except BagError (Chunk × ByteStream) := do
  let (fields, s1) ← read_header s (some .CHUNK_INFO)
  let ver ← decode_uint32 (← pyGet fields verName)
  if ver = 1 then
    let pos_record ← decode_uint64 (← pyGet fields chunkPosName)
    let time_start ← decode_time (← pyGet fields startTimeName)
    let time_end ← decode_time (← pyGet fields endTimeName)
    let num_connections ← decode_uint32 (← pyGet fields countName)
    let (contents, s2) ← read_sized s1
    let (connections, leftover) ← parse_chunk_connections num_connections contents
    if leftover.isEmpty then
      let pos_original := s2.pos
      let s3 := s2.seek pos_record
      let (cfields, s4) ← read_header s3 (some .CHUNK)
      let size_uncompressed ← decode_uint32 (← pyGet cfields sizeName)
      match Compression.ofBytes (← pyGet cfields compressionName) with
      | none => .error .valueError
      | some compression =>
        let pos_data := s4.pos
        let (size_compressed, s5) ← read_uint32 s4
        let s6 := s5.seek pos_original
        .ok (⟨pos_record, pos_data, time_start, time_end, connections,
              compression, size_uncompressed, size_compressed⟩, s6)
    else .error .assertionFailed
  else .error .assertionFailed

/-- The per-connection index: connection id to its entry list, as an
insertion-ordered dict. -/
def IndexMap := List (Nat × List IndexEntry)

/-- Python dict assignment: overwrite in place, else append. -/
def dictSet (m : List (Nat × List IndexEntry)) (k : Nat)
    (v : List IndexEntry) : List (Nat × List IndexEntry) :=
  match m with
  | [] => [(k, v)]
  | (k1, v1) :: rest =>
    if k1 = k then (k, v) :: rest else (k1, v1) :: dictSet rest k v

/-- `index[uid].append(entry)`: fails with `KeyError` when `uid` is not a
key of the index dict. -/
def indexAppend (m : List (Nat × List IndexEntry)) (uid : Nat)
    (e : IndexEntry) : Except BagError (List (Nat × List IndexEntry)) :=
  match m with
  | [] => .error (.keyError connName)
  | (k1, v1) :: rest =>
    if k1 = uid then .ok ((k1, v1 ++ [e]) :: rest)
    else do
      let rest1 ← indexAppend rest uid e
      .ok ((k1, v1) :: rest1)

/-- The entry loop of `_read_index_record`: read `count` `(time, offset)`
pairs and append each as an `IndexEntry` to the `uid` list. -/
def read_index_entries (s : ByteStream) (posChunk uid : Nat) :
    Nat → List (Nat × List IndexEntry) →
    Except BagError (List (Nat × List IndexEntry) × ByteStream)
  | 0, index => .ok (index, s)
  | n + 1, index => do
    let (time, s1) ← read_time s
    let (offset, s2) ← read_uint32 s1
    let index1 ← indexAppend index uid ⟨time, posChunk, offset⟩
    read_index_entries s2 posChunk uid n index1

/-- `_read_index_record`: decode an IndexData field block, check the
version, skip the data-block size field, then read the packed entries. -/
def read_index_record (s : ByteStream) (posChunk : Nat)
    (index : List (Nat × List IndexEntry)) :
    Except BagError (List (Nat × List IndexEntry) × ByteStream) := do
  let (fields, s1) ← read_header s (some .INDEX_DATA)
  let ver ← decode_uint32 (← pyGet fields verName)
  let uid ← decode_uint32 (← pyGet fields connName)
  let count ← decode_uint32 (← pyGet fields countName)
  if ver = 1 then do
    let (_, s2) ← read_uint32 s1
    read_index_entries s2 posChunk uid count index
  else .error .assertionFailed

/-- The inner loop of `_read_index` for one chunk: one IndexData record
per connection present in the chunk. -/
def read_index_records (s : ByteStream) (posChunk : Nat) :
    Nat → List (Nat × List IndexEntry) →
    Except BagError (List (Nat × List IndexEntry) × ByteStream)
  | 0, index => .ok (index, s)
  | n + 1, index => do
    let (index1, s1) ← read_index_record s posChunk index
    read_index_records s1 posChunk n index1

/-- The chunk loop of `_read_index`: seek to the chunk record, skip its
header and data blocks, then read its IndexData records. -/
def read_index_chunks (fileData : List Nat) :
    List Chunk → List (Nat × List IndexEntry) →
    Except BagError (List (Nat × List IndexEntry))
  | [], index => .ok index
  | chunk :: rest, index => do
    let s := ByteStream.mk fileData chunk.pos_record
    let s1 ← skip_record s
    let (index1, _) ← read_index_records s1 chunk.pos_record
      chunk.connections.length index
    read_index_chunks fileData rest index1

/-- `_read_index`: initialise one empty list per connection, walk every
chunk's IndexData records, then prune connections whose list stayed
empty. -/
def read_index (fileData : List Nat) (connections : List ConnectionInfo)
    (chunks : List Chunk) : Except BagError (List (Nat × List IndexEntry)) := do
  let index0 := connections.foldl (fun m c => dictSet m c.conn []) []
  let index ← read_index_chunks fileData chunks index0
  .ok (index.filter (fun p => !p.2.isEmpty))

/-- The `__pos_to_chunk` dict `{c.pos_record: c for c in chunks}`:
lookup by chunk record position, a repeated position keeping the last
chunk. -/
def posToChunk (chunks : List Chunk) (pos : Nat) : Option Chunk :=
  match chunks with
  | [] => none
  | c :: rest =>
    match posToChunk rest pos with
    | some c2 => some c2
    | none => if c.pos_record = pos then some c else none

/-- The record-scanning loop of `fetch_message_data_record`, threading
the backing file stream `fp` alongside the chunk buffer `bfr`.  A field
block is decoded at the buffer cursor (`_read_header(ptr=bfr)` forwards
the ptr throughout).  On a ConnectionInfo record the code calls
`self._skip_sized(bfr)`, which does NOT forward the ptr to
`_read_uint32`: the 4-byte skip length is read from the backing FILE
stream while the BUFFER is sought forward by it — at file EOF this is a
truncated-read failure, and otherwise the buffer is moved by a length
taken from unrelated file bytes.  A MessageData record ends the scan
with its `conn` and `time` fields decoded; any other opcode is an
unexpected-opcode failure naming it together with MESSAGE_DATA.  Each
iteration consumes at least four bytes of the buffer (the header read)
and never moves its cursor backwards, so fuel one larger than the
buffer size never runs out. -/
def scan_message_aux : Nat → ByteStream → ByteStream →
    Except BagError ((Nat × Time) × ByteStream)
  | 0, _, _ => .error .outOfFuel
  | fuel + 1, fp, bfr => do
    let (fields, b1) ← read_header bfr none
    let opv ← pyGet fields opName
    match OpCode.ofBytes opv with
    | none => .error (.invalidOpcode opv)
    | some op =>
      if op = .CONNECTION_INFO then do
        let (n, fp1) ← read_uint32 fp
        scan_message_aux fuel fp1 (b1.seek (b1.pos + n))
      else if op = .MESSAGE_DATA then do
        let conn_id ← decode_uint32 (← pyGet fields connName)
        let t ← decode_time (← pyGet fields timeName)
        .ok ((conn_id, t), b1)
      else .error (.unexpectedOpcode .MESSAGE_DATA op)

/-- The scanning loop started on a chunk buffer, with the file stream
wherever the preceding chunk read left it. -/
def scan_message (fp bfr : ByteStream) :
    Except BagError ((Nat × Time) × ByteStream) :=
  scan_message_aux (bfr.data.length + 1) fp bfr

/-- The open-time state of a `BagReader` that `fetch_message_data_record`
and `_read_index` consult: the raw file bytes, the connection table in
file order, and the chunk summaries. -/
structure BagReaderModel where
  fileData : List Nat
  connections : List ConnectionInfo
  chunks : List Chunk
  deriving Repr

/-- `fetch_message_data_record`: look up the owning chunk, read its
(uncompressed) data into a buffer — leaving the file cursor just past
the chunk payload — seek the buffer to the entry offset, then scan to
the first MessageData record (the ConnectionInfo skip consuming file
bytes, as `_skip_sized` never forwards its ptr to `_read_uint32`), and
return the topic of `connections[conn_id]` together with the record
time.  The record's payload bytes are left unread (`# TODO read and
decode message content`). -/
def fetch_message_data_record (r : BagReaderModel) (pos offset : Nat) :
    Except BagError BagMessage := do
  match posToChunk r.chunks pos with
  | none => .error (.keyError chunkPosName)
  | some chunk =>
    match chunk.compression with
    | .BZ2 => .error .notImplemented
    | .NONE => do
      let s := ByteStream.mk r.fileData chunk.pos_data
      let (chunkBytes, fp1) ← read_sized s
      let bfr := (ByteStream.mk chunkBytes 0).seek offset
      let ((conn_id, t), _) ← scan_message fp1 bfr
      match r.connections.get? conn_id with
      | none => .error .indexError
      | some conn_info => .ok ⟨conn_info.topic, t⟩

/-- A file opened for writing: backing bytes plus a cursor.  A write at
the cursor overwrites in place and extends the file as needed; a cursor
past the end is zero-filled first, as on a POSIX file. -/
structure WBuf where
  data : List Nat
  pos : Nat
  deriving DecidableEq, Repr

/-- Write a byte string at the cursor. -/
def WBuf.write (b : WBuf) (bs : List Nat) : WBuf :=
  ⟨b.data.take b.pos ++ List.replicate (b.pos - b.data.length) 0 ++ bs
      ++ b.data.drop (b.pos + bs.length),
    b.pos + bs.length⟩

/-- `seek` on a writable file. -/
def WBuf.seek (b : WBuf) (p : Nat) : WBuf :=
  ⟨b.data, p⟩

/-- `write_uint32(v, fp)` from `encode.py`. -/
def write_uint32W (b : WBuf) (v : Nat) : WBuf :=
  b.write (encode_uint32 v)

/-- One iteration of the field loop of `BagWriter._write_header`: the
4-byte sub-block length covering `name + '=' + value`, then the bytes
themselves. -/
def write_field (b : WBuf) (name value : List Nat) : WBuf :=
  let bin_name := name ++ [61]
  ((write_uint32W b (bin_name.length + value.length)).write bin_name).write value

/-- `BagWriter._write_header`: write a zero placeholder for the total
length, write every field (with `op` appended to the field dict), then
seek back and patch the true total length before restoring the cursor. -/
def write_header (b : WBuf) (code : OpCode)
    (fields : List (List Nat × List Nat)) : WBuf :=
  let pos_size := b.pos
  let b1 := write_uint32W b 0
  let pos_content := b1.pos
  let fieldsOp := fields ++ [(opName, code.value)]
  let b2 := fieldsOp.foldl (fun acc p => write_field acc p.1 p.2) b1
  let pos_end := b2.pos
  let size_total := pos_end - pos_content
  let b3 := write_uint32W (b2.seek pos_size) size_total
  b3.seek pos_end

/-- `BagWriter._write_header_record`: seek to the reserved header
position, emit the Header record (index position, connection count,
chunk count), then pad the record to exactly 4096 bytes with a sized
block of ASCII spaces. -/
def write_header_record (b : WBuf) (pos_header : Nat)
    (pos_index conn_count chunk_count : Nat) : WBuf :=
  let b1 := write_header (b.seek pos_header) .HEADER
    [(indexPosName, encode_uint64 pos_index),
     (connCountName, encode_uint32 conn_count),
     (chunkCountName, encode_uint32 chunk_count)]
  let pos_current := b1.pos
  let size_header := pos_current - pos_header
  let size_padding := 4096 - size_header - 4
  (write_uint32W b1 size_padding).write (List.replicate size_padding 32)

/-- Modelled from the spec's words, for comparison with `heapq_merge`:
"a k-way merge (ordered by time, stable on ties)" — pop the head with
the strictly smallest TIME, breaking time ties in favour of the
earliest input list. -/
def popMinTime : List (List IndexEntry) →
    Option (IndexEntry × List (List IndexEntry))
  | [] => none
  | [] :: rest => popMinTime rest
  | (e :: es) :: rest =>
    match popMinTime rest with
    | none => some (e, es :: rest)
    | some (e2, rest2) =>
      if Time.lt e2.time e.time then some (e2, (e :: es) :: rest2)
      else some (e, es :: rest)

/-- Modelled from the spec's words: iterated `popMinTime`. -/
def stable_time_merge_aux : Nat → List (List IndexEntry) → List IndexEntry
  | 0, _ => []
  | fuel + 1, ls =>
    match popMinTime ls with
    | none => []
    | some (e, ls1) => e :: stable_time_merge_aux fuel ls1

/-- Modelled from the spec's words: the k-way merge ordered by time
alone and stable (by input order) on time ties. -/
def stable_time_merge (ls : List (List IndexEntry)) : List IndexEntry :=
  stable_time_merge_aux (totalLen ls) ls

/-- A list of entries is non-decreasing in time (consecutive check). -/
def timeSortedB : List IndexEntry → Bool
  | [] => true
  | [_] => true
  | a :: b :: rest => Time.le a.time b.time && timeSortedB (b :: rest)

/-- Every per-connection list is non-decreasing in time. -/
def allTimeSortedB (ls : List (List IndexEntry)) : Bool :=
  ls.all timeSortedB

/-- The ordering the query output is claimed to satisfy. -/
def entryTimeLE (a b : IndexEntry) : Prop :=
  Time.le a.time b.time = true

theorem time_lt_iff (a b : Time) :
    Time.lt a b = true ↔
      a.secs < b.secs ∨ (a.secs = b.secs ∧ a.nsecs < b.nsecs) := by
  simp [Time.lt]

theorem time_le_iff (a b : Time) :
    Time.le a b = true ↔
      a.secs < b.secs ∨ (a.secs = b.secs ∧ a.nsecs ≤ b.nsecs) := by
  simp [Time.le, Time.lt]
  omega

theorem time_le_refl (a : Time) : Time.le a a = true := by
  simp [time_le_iff]

theorem time_le_trans {a b c : Time} (h1 : Time.le a b = true)
    (h2 : Time.le b c = true) : Time.le a c = true := by
  rw [time_le_iff] at h1 h2 ⊢
  omega

theorem time_lt_le {a b : Time} (h : Time.lt a b = true) :
    Time.le a b = true := by
  rw [time_lt_iff] at h
  rw [time_le_iff]
  omega

theorem time_not_lt_le {a b : Time} (h : Time.lt a b = false) :
    Time.le b a = true := by
  simp [Time.le, h]

theorem time_lt_of_lt_of_le {a b c : Time} (h1 : Time.lt a b = true)
    (h2 : Time.le b c = true) : Time.lt a c = true := by
  rw [time_lt_iff] at h1 ⊢
  rw [time_le_iff] at h2
  omega

theorem time_lt_of_le_of_lt {a b c : Time} (h1 : Time.le a b = true)
    (h2 : Time.lt b c = true) : Time.lt a c = true := by
  rw [time_le_iff] at h1
  rw [time_lt_iff] at h2 ⊢
  omega

theorem entry_lt_time_le {a b : IndexEntry}
    (h : IndexEntry.lt a b = true) : Time.le a.time b.time = true := by
  simp only [IndexEntry.lt, Bool.or_eq_true, Bool.and_eq_true,
    decide_eq_true_eq] at h
  rcases h with h | ⟨h, _⟩
  · exact time_lt_le h
  · rw [h]
    exact time_le_refl _

theorem entry_not_lt_time_le {a b : IndexEntry}
    (h : IndexEntry.lt a b = false) : Time.le b.time a.time = true := by
  simp only [IndexEntry.lt, Bool.or_eq_false_iff, Bool.and_eq_false_iff] at h
  have h1 : Time.lt a.time b.time = false := h.1
  exact time_not_lt_le h1

theorem timeSortedB_pairwise :
    ∀ {l : List IndexEntry}, timeSortedB l = true → l.Pairwise entryTimeLE
  | [], _ => List.Pairwise.nil
  | [a], _ => by simp [entryTimeLE]
  | a :: b :: rest, h => by
    rw [timeSortedB, Bool.and_eq_true] at h
    have htail := timeSortedB_pairwise h.2
    refine List.Pairwise.cons ?_ htail
    intro x hx
    rcases List.mem_cons.mp hx with rfl | hx
    · exact h.1
    · have := (List.pairwise_cons.mp htail).1 x hx
      exact time_le_trans h.1 this

theorem timeSortedB_tail {a : IndexEntry} {l : List IndexEntry}
    (h : timeSortedB (a :: l) = true) : timeSortedB l = true := by
  cases l with
  | nil => rfl
  | cons b rest =>
    rw [timeSortedB, Bool.and_eq_true] at h
    exact h.2

theorem totalLen_join (ls : List (List IndexEntry)) :
    ls.flatten.length = totalLen ls := by
  simp [totalLen, List.length_flatten]

theorem popMin_none : ∀ {ls}, popMin ls = none → ls.flatten = []
  | [], _ => rfl
  | [] :: rest, h => by
    rw [popMin] at h
    simpa using popMin_none h
  | (a :: as) :: rest, h => by
    rw [popMin] at h
    rcases hp : popMin rest with _ | ⟨e2, rest2⟩ <;> rw [hp] at h
    · simp at h
    · by_cases hlt : IndexEntry.lt e2 a = true <;> simp [hlt] at h

theorem popMin_perm : ∀ {ls e ls1}, popMin ls = some (e, ls1) →
    (e :: ls1.flatten).Perm ls.flatten
  | [], _, _, h => by simp [popMin] at h
  | [] :: rest, e, ls1, h => by
    rw [popMin] at h
    simpa using popMin_perm h
  | (a :: as) :: rest, e, ls1, h => by
    rw [popMin] at h
    rcases hp : popMin rest with _ | ⟨e2, rest2⟩ <;> rw [hp] at h
    · simp only [Option.some.injEq, Prod.mk.injEq] at h
      obtain ⟨rfl, rfl⟩ := h
      simp
    · by_cases hlt : IndexEntry.lt e2 a = true <;>
        simp only [hlt, if_true, if_false, Bool.false_eq_true,
          Option.some.injEq, Prod.mk.injEq] at h
      · obtain ⟨rfl, rfl⟩ := h
        have ih := popMin_perm hp
        simp only [List.flatten_cons]
        exact List.perm_middle.symm.trans (ih.append_left (a :: as))
      · obtain ⟨rfl, rfl⟩ := h
        simp

theorem popMin_totalLen {ls : List (List IndexEntry)} {e ls1}
    (h : popMin ls = some (e, ls1)) : totalLen ls = totalLen ls1 + 1 := by
  have := (popMin_perm h).length_eq
  simp only [List.length_cons, totalLen_join] at this
  omega

theorem popMin_sorted : ∀ {ls e ls1}, popMin ls = some (e, ls1) →
    (∀ l ∈ ls, timeSortedB l = true) → ∀ l ∈ ls1, timeSortedB l = true
  | [] :: rest, e, ls1, h, hs => by
    rw [popMin] at h
    exact popMin_sorted h (fun l hl => hs l (List.mem_cons_of_mem _ hl))
  | (a :: as) :: rest, e, ls1, h, hs => by
    rw [popMin] at h
    have hhead : timeSortedB (a :: as) = true := hs _ (List.mem_cons_self _ _)
    have hrest : ∀ l ∈ rest, timeSortedB l = true :=
      fun l hl => hs l (List.mem_cons_of_mem _ hl)
    rcases hp : popMin rest with _ | ⟨e2, rest2⟩ <;> rw [hp] at h
    · simp only [Option.some.injEq, Prod.mk.injEq] at h
      obtain ⟨rfl, rfl⟩ := h
      intro l hl
      rcases List.mem_cons.mp hl with rfl | hl
      · exact timeSortedB_tail hhead
      · exact hrest l hl
    · by_cases hlt : IndexEntry.lt e2 a = true <;>
        simp only [hlt, if_true, if_false, Bool.false_eq_true,
          Option.some.injEq, Prod.mk.injEq] at h
      · obtain ⟨rfl, rfl⟩ := h
        intro l hl
        rcases List.mem_cons.mp hl with rfl | hl
        · exact hhead
        · exact popMin_sorted hp hrest l hl
      · obtain ⟨rfl, rfl⟩ := h
        intro l hl
        rcases List.mem_cons.mp hl with rfl | hl
        · exact timeSortedB_tail hhead
        · exact hrest l hl

theorem popMin_min : ∀ {ls e ls1}, popMin ls = some (e, ls1) →
    (∀ l ∈ ls, timeSortedB l = true) →
    ∀ x ∈ ls.flatten, Time.le e.time x.time = true
  | [] :: rest, e, ls1, h, hs => by
    rw [popMin] at h
    intro x hx
    rw [List.flatten_cons, List.nil_append] at hx
    exact popMin_min h (fun l hl => hs l (List.mem_cons_of_mem _ hl)) x hx
  | (a :: as) :: rest, e, ls1, h, hs => by
    rw [popMin] at h
    have hhead : timeSortedB (a :: as) = true := hs _ (List.mem_cons_self _ _)
    have hpw := timeSortedB_pairwise hhead
    have hfirst : ∀ x ∈ a :: as, Time.le a.time x.time = true := by
      intro x hx
      rcases List.mem_cons.mp hx with rfl | hx
      · exact time_le_refl _
      · exact (List.pairwise_cons.mp hpw).1 x hx
    have hrest : ∀ l ∈ rest, timeSortedB l = true :=
      fun l hl => hs l (List.mem_cons_of_mem _ hl)
    rcases hp : popMin rest with _ | ⟨e2, rest2⟩ <;> rw [hp] at h
    · simp only [Option.some.injEq, Prod.mk.injEq] at h
      obtain ⟨rfl, rfl⟩ := h
      intro x hx
      rw [List.flatten_cons] at hx
      rcases List.mem_append.mp hx with hx | hx
      · exact hfirst x hx
      · rw [popMin_none hp] at hx
        simp at hx
    · by_cases hlt : IndexEntry.lt e2 a = true <;>
        simp only [hlt, if_true, if_false, Bool.false_eq_true,
          Option.some.injEq, Prod.mk.injEq] at h
      · obtain ⟨rfl, rfl⟩ := h
        intro x hx
        rw [List.flatten_cons] at hx
        rcases List.mem_append.mp hx with hx | hx
        · exact time_le_trans (entry_lt_time_le hlt) (hfirst x hx)
        · exact popMin_min hp hrest x hx
      · obtain ⟨rfl, rfl⟩ := h
        have hle : Time.le a.time e2.time = true :=
          entry_not_lt_time_le (by simpa using hlt)
        intro x hx
        rw [List.flatten_cons] at hx
        rcases List.mem_append.mp hx with hx | hx
        · exact hfirst x hx
        · exact time_le_trans hle (popMin_min hp hrest x hx)

theorem heapq_merge_aux_mem : ∀ {fuel ls x}, x ∈ heapq_merge_aux fuel ls →
    x ∈ ls.flatten
  | 0, ls, x, h => by simp [heapq_merge_aux] at h
  | fuel + 1, ls, x, h => by
    rw [heapq_merge_aux] at h
    rcases hp : popMin ls with _ | ⟨e, ls1⟩ <;> rw [hp] at h
    · simp at h
    · have hperm := popMin_perm hp
      rcases List.mem_cons.mp h with rfl | h
      · exact hperm.mem_iff.mp (List.mem_cons_self _ _)
      · exact hperm.mem_iff.mp (List.mem_cons_of_mem _ (heapq_merge_aux_mem h))

theorem heapq_merge_aux_pairwise : ∀ {fuel ls},
    (∀ l ∈ ls, timeSortedB l = true) →
    (heapq_merge_aux fuel ls).Pairwise entryTimeLE
  | 0, ls, _ => by
    rw [heapq_merge_aux]
    exact List.Pairwise.nil
  | fuel + 1, ls, hs => by
    rw [heapq_merge_aux]
    rcases hp : popMin ls with _ | ⟨e, ls1⟩
    · exact List.Pairwise.nil
    · refine List.Pairwise.cons ?_ (heapq_merge_aux_pairwise (popMin_sorted hp hs))
      intro y hy
      have hy1 : y ∈ ls1.flatten := heapq_merge_aux_mem hy
      have hy2 : y ∈ ls.flatten :=
        (popMin_perm hp).mem_iff.mp (List.mem_cons_of_mem _ hy1)
      exact popMin_min hp hs y hy2

theorem heapq_merge_aux_perm : ∀ {fuel ls}, totalLen ls = fuel →
    (heapq_merge_aux fuel ls).Perm ls.flatten
  | 0, ls, hf => by
    rw [heapq_merge_aux]
    have : ls.flatten.length = 0 := by rw [totalLen_join, hf]
    rw [List.length_eq_zero.mp this]
  | fuel + 1, ls, hf => by
    rw [heapq_merge_aux]
    rcases hp : popMin ls with _ | ⟨e, ls1⟩
    · rw [popMin_none hp]
    · have h1 : totalLen ls1 = fuel := by
        have := popMin_totalLen hp
        omega
      exact ((heapq_merge_aux_perm h1).cons e).trans (popMin_perm hp)

theorem allTimeSortedB_forall {ls : List (List IndexEntry)}
    (h : allTimeSortedB ls = true) : ∀ l ∈ ls, timeSortedB l = true := by
  simpa [allTimeSortedB, List.all_eq_true] using h

theorem heapq_merge_pairwise {ls : List (List IndexEntry)}
    (h : allTimeSortedB ls = true) :
    (heapq_merge ls).Pairwise entryTimeLE :=
  heapq_merge_aux_pairwise (allTimeSortedB_forall h)

theorem heapq_merge_perm (ls : List (List IndexEntry)) :
    (heapq_merge ls).Perm ls.flatten :=
  heapq_merge_aux_perm rfl

theorem entries_loop_none : ∀ (l : List IndexEntry),
    entries_loop l none none = l
  | [] => rfl
  | e :: rest => by
    rw [entries_loop]
    simp [beforeStart, afterEnd, entries_loop_none rest]

theorem entries_loop_window : ∀ {l : List IndexEntry} {a b : Time},
    l.Pairwise entryTimeLE → Time.le a b = true →
    entries_loop l (some a) (some b) =
      l.filter (fun e => Time.le a e.time && Time.le e.time b) ∧
    entries_pulled l (some a) (some b) =
      min l.length ((l.takeWhile (fun e => Time.le e.time b)).length + 1)
  | [], a, b, _, _ => by simp [entries_loop, entries_pulled]
  | e :: rest, a, b, hp, hab => by
    have hp1 : ∀ x ∈ rest, entryTimeLE e x := (List.pairwise_cons.mp hp).1
    have hp2 : rest.Pairwise entryTimeLE := (List.pairwise_cons.mp hp).2
    rw [entries_loop, entries_pulled]
    rcases h1 : Time.lt e.time a with _ | _
    · rcases h2 : Time.lt b e.time with _ | _
      · -- in-window entry: kept
        have hkeep : (Time.le a e.time && Time.le e.time b) = true := by
          simp [Time.le, h1, h2]
        have htw : Time.le e.time b = true := by simp [Time.le, h2]
        have ih := entries_loop_window hp2 hab
        constructor
        · simp [beforeStart, afterEnd, h1, h2, List.filter_cons, hkeep, ih.1]
        · simp only [beforeStart, afterEnd, h1, h2, Bool.false_eq_true,
            if_false, List.takeWhile_cons, htw, if_true, List.length_cons, ih.2]
          omega
      · -- past the end bound: loop stops
        have hdrop : (Time.le a e.time && Time.le e.time b) = false := by
          simp [Time.le, h2]
        have hrest : rest.filter (fun x => Time.le a x.time && Time.le x.time b) = [] := by
          rw [List.filter_eq_nil_iff]
          intro x hx
          have hbx : Time.lt b x.time = true :=
            time_lt_of_lt_of_le h2 (hp1 x hx)
          simp [Time.le, hbx]
        have htw : Time.le e.time b = false := by simp [Time.le, h2]
        constructor
        · simp [beforeStart, afterEnd, h1, h2, List.filter_cons, hdrop, hrest]
        · simp only [beforeStart, afterEnd, h1, h2, Bool.false_eq_true,
            if_false, if_true, List.takeWhile_cons, htw, List.length_cons,
            List.length_nil]
          omega
    · -- before the start bound: skipped, loop continues
      have hdrop : (Time.le a e.time && Time.le e.time b) = false := by
        simp [Time.le, h1]
      have htw : Time.le e.time b = true :=
        time_lt_le (time_lt_of_lt_of_le h1 hab)
      have ih := entries_loop_window hp2 hab
      constructor
      · simp [beforeStart, h1, List.filter_cons, hdrop, ih.1]
      · simp only [beforeStart, h1, if_true, List.takeWhile_cons, htw,
          List.length_cons, ih.2]
        omega

/-- Shorthand for index entries in concrete test vectors: time `(t, 0)`,
chunk position `p`, offset `o`. -/
def ent (t p o : Nat) : IndexEntry :=
  ⟨⟨t, 0⟩, p, o⟩

/-- C1 (amended): for every container whose per-connection index lists are
non-decreasing in time, a query with no topic filter and no time bounds is
exactly the k-way merge of the selected lists under the full
`(time, pos, offset)` entry comparison (ties of that full comparison
favouring the earlier input); its output is globally non-decreasing in
time and is a permutation of all entries of the selected lists. -/
theorem C1_filterless_query_time_ordered (ls : List (List IndexEntry))
    (h : allTimeSortedB ls = true) :
    get_entries ls none none = heapq_merge ls ∧
    (get_entries ls none none).Pairwise entryTimeLE ∧
    (get_entries ls none none).Perm ls.flatten := by
  rw [get_entries, entries_loop_none]
  exact ⟨rfl, heapq_merge_pairwise h, heapq_merge_perm ls⟩

/-- C1 witness: the spec's own example — three connections with
interleaved timestamps 1,4,7 / 2,5,8 / 3,6,9 merge to 1..9. -/
theorem C1_filterless_query_time_ordered_witness :
    allTimeSortedB [[ent 1 0 0, ent 4 0 0, ent 7 0 0],
      [ent 2 0 0, ent 5 0 0, ent 8 0 0],
      [ent 3 0 0, ent 6 0 0, ent 9 0 0]] = true ∧
    get_entries [[ent 1 0 0, ent 4 0 0, ent 7 0 0],
      [ent 2 0 0, ent 5 0 0, ent 8 0 0],
      [ent 3 0 0, ent 6 0 0, ent 9 0 0]] none none =
      [ent 1 0 0, ent 2 0 0, ent 3 0 0, ent 4 0 0, ent 5 0 0,
       ent 6 0 0, ent 7 0 0, ent 8 0 0, ent 9 0 0] ∧
    ((get_entries [[ent 1 0 0, ent 4 0 0, ent 7 0 0],
      [ent 2 0 0, ent 5 0 0, ent 8 0 0],
      [ent 3 0 0, ent 6 0 0, ent 9 0 0]] none none = heapq_merge
        [[ent 1 0 0, ent 4 0 0, ent 7 0 0],
         [ent 2 0 0, ent 5 0 0, ent 8 0 0],
         [ent 3 0 0, ent 6 0 0, ent 9 0 0]]) ∧
      (get_entries [[ent 1 0 0, ent 4 0 0, ent 7 0 0],
        [ent 2 0 0, ent 5 0 0, ent 8 0 0],
        [ent 3 0 0, ent 6 0 0, ent 9 0 0]] none none).Pairwise entryTimeLE ∧
      (get_entries [[ent 1 0 0, ent 4 0 0, ent 7 0 0],
        [ent 2 0 0, ent 5 0 0, ent 8 0 0],
        [ent 3 0 0, ent 6 0 0, ent 9 0 0]] none none).Perm
        [[ent 1 0 0, ent 4 0 0, ent 7 0 0],
         [ent 2 0 0, ent 5 0 0, ent 8 0 0],
         [ent 3 0 0, ent 6 0 0, ent 9 0 0]].flatten) :=
  ⟨by decide, by decide,
    C1_filterless_query_time_ordered _ (by decide)⟩

/-- C1 counterexample: the merge is NOT stable on time ties.  Two
single-entry connections with equal times and different chunk positions
are emitted in chunk-position order, while the spec's time-ordered,
tie-stable merge keeps input order. -/
theorem C1_counterexample_tie_order :
    allTimeSortedB [[ent 1 100 0], [ent 1 50 0]] = true ∧
    get_entries [[ent 1 100 0], [ent 1 50 0]] none none =
      [ent 1 50 0, ent 1 100 0] ∧
    stable_time_merge [[ent 1 100 0], [ent 1 50 0]] =
      [ent 1 100 0, ent 1 50 0] ∧
    get_entries [[ent 1 100 0], [ent 1 50 0]] none none ≠
      stable_time_merge [[ent 1 100 0], [ent 1 50 0]] := by
  decide

/-- C2 (amended): for every container whose per-connection index lists
are non-decreasing in time and every pair of bounds with `a <= b`, the
query yields exactly the entries whose time lies in `[a, b]` (a
permutation-exact filter of all selected entries), and the loop stops
pulling from the merged iterator at the first entry whose time exceeds
`b` (pulling everything only when no entry exceeds `b`). -/
theorem C2_time_window (ls : List (List IndexEntry)) (a b : Time)
    (h : allTimeSortedB ls = true) (hab : Time.le a b = true) :
    get_entries ls (some a) (some b) =
      (heapq_merge ls).filter (fun e => Time.le a e.time && Time.le e.time b) ∧
    (get_entries ls (some a) (some b)).Perm
      (ls.flatten.filter (fun e => Time.le a e.time && Time.le e.time b)) ∧
    entries_pulled (heapq_merge ls) (some a) (some b) =
      min (heapq_merge ls).length
        (((heapq_merge ls).takeWhile (fun e => Time.le e.time b)).length + 1) := by
  have hpw := heapq_merge_pairwise h
  have hw := entries_loop_window hpw hab
  refine ⟨?_, ?_, hw.2⟩
  · rw [get_entries, hw.1]
  · rw [get_entries, hw.1]
    exact (heapq_merge_perm ls).filter _

/-- C2 witness: two connections, window `[2, 3]` keeps exactly the two
in-range entries. -/
theorem C2_time_window_witness :
    allTimeSortedB [[ent 1 0 0, ent 3 0 0], [ent 2 0 0, ent 4 0 0]] = true ∧
    Time.le ⟨2, 0⟩ ⟨3, 0⟩ = true ∧
    (get_entries [[ent 1 0 0, ent 3 0 0], [ent 2 0 0, ent 4 0 0]]
        (some ⟨2, 0⟩) (some ⟨3, 0⟩) =
      (heapq_merge [[ent 1 0 0, ent 3 0 0], [ent 2 0 0, ent 4 0 0]]).filter
        (fun e => Time.le ⟨2, 0⟩ e.time && Time.le e.time ⟨3, 0⟩) ∧
    (get_entries [[ent 1 0 0, ent 3 0 0], [ent 2 0 0, ent 4 0 0]]
        (some ⟨2, 0⟩) (some ⟨3, 0⟩)).Perm
      ([[ent 1 0 0, ent 3 0 0], [ent 2 0 0, ent 4 0 0]].flatten.filter
        (fun e => Time.le ⟨2, 0⟩ e.time && Time.le e.time ⟨3, 0⟩)) ∧
    entries_pulled (heapq_merge [[ent 1 0 0, ent 3 0 0], [ent 2 0 0, ent 4 0 0]])
        (some ⟨2, 0⟩) (some ⟨3, 0⟩) =
      min (heapq_merge [[ent 1 0 0, ent 3 0 0], [ent 2 0 0, ent 4 0 0]]).length
        (((heapq_merge [[ent 1 0 0, ent 3 0 0],
            [ent 2 0 0, ent 4 0 0]]).takeWhile
          (fun e => Time.le e.time ⟨3, 0⟩)).length + 1)) :=
  ⟨by decide, by decide,
    C2_time_window _ _ _ (by decide) (by decide)⟩

/-- C2 counterexample: with `time_start = (5,0)` after `time_end = (3,0)`,
the first merged entry (time 4) already exceeds `time_end`, yet the loop
pulls a second entry because the `time_start` skip is tested first — it
does not terminate at the first entry whose time exceeds the end bound. -/
theorem C2_counterexample_pulls_past_end :
    allTimeSortedB [[ent 4 0 0, ent 6 0 0]] = true ∧
    heapq_merge [[ent 4 0 0, ent 6 0 0]] = [ent 4 0 0, ent 6 0 0] ∧
    Time.lt ⟨3, 0⟩ (ent 4 0 0).time = true ∧
    entries_pulled (heapq_merge [[ent 4 0 0, ent 6 0 0]])
      (some ⟨5, 0⟩) (some ⟨3, 0⟩) = 2 ∧
    get_entries [[ent 4 0 0, ent 6 0 0]] (some ⟨5, 0⟩) (some ⟨3, 0⟩) = [] := by
  decide

/-- C10: a query whose `topics` argument is an empty collection selects
all connections, exactly like an absent filter, because `_get_connections`
tests the collection's truthiness; the produced entry sequence is
identical for any per-connection index lookup and any time bounds. -/
theorem C10_empty_topics_selects_all (conns : List ConnectionInfo)
    (f : ConnectionInfo → List IndexEntry) (ts te : Option Time) :
    get_connections conns (some []) = get_connections conns none ∧
    get_entries ((get_connections conns (some [])).map f) ts te =
      get_entries ((get_connections conns none).map f) ts te :=
  ⟨rfl, rfl⟩

theorem exbind_ok {α β : Type} (a : α) (k : α → Except BagError β) :
    (Except.ok a >>= k) = k a := rfl

theorem exbind_err {α β : Type} (e : BagError) (k : α → Except BagError β) :
    ((Except.error e : Except BagError α) >>= k) = .error e := rfl

theorem decode_uint32_error {v : List Nat} {e : BagError}
    (h : decode_uint32 v = .error e) : e = .truncated := by
  unfold decode_uint32 at h
  split at h
  · simp at h
  · simpa using h.symm

theorem parse_fields_aux_ne_malformed : ∀ (fuel : Nat) (header : List Nat),
    parse_fields_aux fuel header ≠ .error .malformedHeader := by
  intro fuel
  induction fuel with
  | zero =>
    intro header
    cases header <;> simp [parse_fields_aux]
  | succ n ih =>
    intro header
    cases header with
    | nil => simp [parse_fields_aux]
    | cons b rest =>
      rw [parse_fields_aux]
      cases hd : decode_uint32 ((b :: rest).take 4) with
      | error e =>
        rw [exbind_err]
        have he := decode_uint32_error hd
        simp [he]
      | ok size =>
        rw [exbind_ok]
        rcases hpe : partitionEq ((List.drop 4 (b :: rest)).take size) with
          ⟨name, sep, value⟩
        simp only [hpe, bytesEqEmptyStr, Bool.false_eq_true, if_false]
        cases hr : parse_fields_aux n ((List.drop 4 (b :: rest)).drop size) with
        | error e =>
          rw [exbind_err]
          intro hcon
          simp only [Except.error.injEq] at hcon
          exact ih _ (by rw [hr, hcon])
        | ok fields =>
          rw [exbind_ok]
          simp

/-- C3: the `sep == ''` malformed-header guard of `_read_header`
compares a bytes value against a str and is therefore never true; a
field block whose sub-block has no `=` separator decodes WITHOUT error
into a field named by the whole sub-block with an empty value, and no
input whatsoever produces the malformed-header failure. -/
theorem C3_no_separator_not_detected :
    parse_fields [3, 0, 0, 0, 97, 98, 99] = .ok [([97, 98, 99], [])] ∧
    ∀ bs : List Nat, parse_fields bs ≠ .error .malformedHeader :=
  ⟨by rfl, fun _ => parse_fields_aux_ne_malformed _ _⟩

theorem byteLE_length : ∀ (n v : Nat), (byteLE n v).length = n
  | 0, _ => rfl
  | n + 1, v => by
    rw [byteLE, List.length_cons, byteLE_length n]

theorem byteLE_take : ∀ (k n v : Nat),
    (byteLE n v).take k = byteLE (min k n) v
  | k, 0, v => by simp [byteLE]
  | 0, n + 1, v => by simp [byteLE]
  | k + 1, n + 1, v => by
    rw [byteLE, List.take_succ_cons, byteLE_take k n, Nat.succ_min_succ, byteLE]

theorem leNat_byteLE : ∀ (n v : Nat), leNat (byteLE n v) = v % 256 ^ n
  | 0, v => by simp [byteLE, leNat, Nat.mod_one]
  | n + 1, v => by
    rw [byteLE, leNat, leNat_byteLE n, pow_succ, mul_comm (256 ^ n) 256,
      Nat.mod_mul]

/-- C4: `decode_uint64` in `bag.py` unpacks `<LL` and keeps only the
first word, so a round trip through the writer's 8-byte little-endian
`encode_uint64` returns the value reduced modulo 2^32: it is correct
for values below 2^32 and wrong from 2^32 upward (e.g. 2^32 decodes to
0), refuting correctness for all values up to 2^64 - 1. -/
theorem C4_decode_uint64_truncates :
    decode_uint64 (encode_uint64 4294967296) = .ok 0 ∧
    decode_uint64 (encode_uint64 4294967295) = .ok 4294967295 ∧
    ∀ v : Nat, decode_uint64 (encode_uint64 v) = .ok (v % 4294967296) := by
  refine ⟨by rfl, by rfl, fun v => ?_⟩
  rw [decode_uint64, encode_uint64, if_pos (byteLE_length 8 v), byteLE_take,
    leNat_byteLE]
  norm_num

theorem drop_append_take {A bs C : List Nat} {p : Nat} (h : A.length = p) :
    (((A ++ (bs ++ C)).drop p).take bs.length) = bs := by
  subst h
  rw [List.drop_left, List.take_left]

theorem WBuf.write_pos (b : WBuf) (bs : List Nat) :
    (b.write bs).pos = b.pos + bs.length := rfl

theorem WBuf.seek_pos (b : WBuf) (p : Nat) : (b.seek p).pos = p := rfl

theorem write_uint32W_pos (b : WBuf) (v : Nat) :
    (write_uint32W b v).pos = b.pos + 4 := by
  rw [write_uint32W, WBuf.write_pos, encode_uint32, byteLE_length]

theorem write_field_pos (b : WBuf) (name value : List Nat) :
    (write_field b name value).pos = b.pos + 5 + name.length + value.length := by
  rw [write_field]
  rw [WBuf.write_pos, WBuf.write_pos, write_uint32W_pos]
  simp only [List.length_append, List.length_cons, List.length_nil]
  omega

theorem write_data_slice (b : WBuf) (bs : List Nat) :
    ((b.write bs).data.drop b.pos).take bs.length = bs := by
  simp only [WBuf.write]
  rw [List.append_assoc]
  refine drop_append_take ?_
  simp only [List.length_append, List.length_take, List.length_replicate]
  omega

theorem write_header_hdr_pos (b : WBuf) (ph pi cc kc : Nat) :
    (write_header (b.seek ph) .HEADER
      [(indexPosName, encode_uint64 pi), (connCountName, encode_uint32 cc),
       (chunkCountName, encode_uint32 kc)]).pos = ph + 73 := by
  rw [write_header]
  simp only [List.foldl, WBuf.seek_pos, write_field_pos, write_uint32W_pos,
    encode_uint32, encode_uint64, byteLE_length, indexPosName, connCountName,
    chunkCountName, opName, OpCode.value, OpCode.byte, List.length_cons,
    List.length_nil]

theorem write_pad_tail (b1 : WBuf) (ph : Nat) (h : b1.pos = ph + 73) :
    ((write_uint32W b1 (4096 - (b1.pos - ph) - 4)).write
      (List.replicate (4096 - (b1.pos - ph) - 4) 32)).pos = ph + 4096 ∧
    (((write_uint32W b1 (4096 - (b1.pos - ph) - 4)).write
      (List.replicate (4096 - (b1.pos - ph) - 4) 32)).data.drop
        (ph + 77)).take 4019 = List.replicate 4019 32 := by
  have hsp : 4096 - (b1.pos - ph) - 4 = 4019 := by omega
  rw [hsp]
  have hpos2 : (write_uint32W b1 4019).pos = ph + 77 := by
    rw [write_uint32W_pos, h]
  constructor
  · rw [WBuf.write_pos, hpos2, List.length_replicate]
  · have hs := write_data_slice (write_uint32W b1 4019) (List.replicate 4019 32)
    rw [hpos2, List.length_replicate] at hs
    exact hs

/-- C6: for every index position, connection count and chunk count, the
container header record written by `_write_header_record` occupies
exactly 4096 bytes starting at the reserved header position — the
cursor ends 4096 bytes after it — and the remainder after the 73 header
bytes and the 4-byte padding length is filled with ASCII spaces. -/
theorem C6_header_record_is_4096_bytes (b : WBuf) (ph pi cc kc : Nat) :
    (write_header_record b ph pi cc kc).pos = ph + 4096 ∧
    ((write_header_record b ph pi cc kc).data.drop (ph + 77)).take 4019 =
      List.replicate 4019 32 := by
  have h1 := write_header_hdr_pos b ph pi cc kc
  have := write_pad_tail
    (write_header (b.seek ph) .HEADER
      [(indexPosName, encode_uint64 pi), (connCountName, encode_uint32 cc),
       (chunkCountName, encode_uint32 kc)]) ph h1
  simpa only [write_header_record] using this

theorem read_uint32_ok {s : ByteStream} {v : Nat} {s1 : ByteStream}
    (h : read_uint32 s = .ok (v, s1)) :
    s1.data = s.data ∧ s1.pos = s.pos + 4 ∧ s.pos + 4 ≤ s.data.length := by
  rw [read_uint32] at h
  simp only [ByteStream.readN] at h
  cases hd : decode_uint32 ((s.data.drop s.pos).take 4) with
  | error e => rw [hd] at h; exact absurd h (by simp)
  | ok w =>
    rw [hd] at h
    rw [decode_uint32] at hd
    split at hd
    · rename_i hlen
      simp only [List.length_take, List.length_drop] at hlen
      simp only [ByteStream.readN, Except.ok.injEq, Prod.mk.injEq] at h
      refine ⟨by rw [← h.2], ?_, ?_⟩
      · rw [← h.2]
        simp only [List.length_take, List.length_drop]
        omega
      · omega
    · exact absurd hd (by simp)

theorem read_time_ok {s : ByteStream} {t : Time} {s1 : ByteStream}
    (h : read_time s = .ok (t, s1)) :
    s1.data = s.data ∧ s.pos + 8 ≤ s1.pos := by
  rw [read_time] at h
  simp only [ByteStream.readN] at h
  cases hd : decode_time ((s.data.drop s.pos).take 8) with
  | error e => rw [hd] at h; exact absurd h (by simp)
  | ok w =>
    rw [hd] at h
    have hlen : ((s.data.drop s.pos).take 8).length = 8 := by
      rw [decode_time] at hd
      cases h1 : decode_uint32 (((s.data.drop s.pos).take 8).take 4) with
      | error e => rw [h1, exbind_err] at hd; exact absurd hd (by simp)
      | ok a =>
        rw [h1, exbind_ok] at hd
        cases h2 : decode_uint32 ((((s.data.drop s.pos).take 8).drop 4).take 4) with
        | error e => rw [h2, exbind_err] at hd; exact absurd hd (by simp)
        | ok b =>
          rw [decode_uint32] at h1 h2
          split at h1
          · split at h2
            · rename_i ha hb
              simp only [List.length_take, List.length_drop] at ha hb ⊢
              omega
            · exact absurd h2 (by simp)
          · exact absurd h1 (by simp)
    simp only [ByteStream.readN, Except.ok.injEq, Prod.mk.injEq] at h
    rw [← h.2]
    refine ⟨rfl, ?_⟩
    simp [hlen]

theorem read_sized_ok {s : ByteStream} {c : List Nat} {s2 : ByteStream}
    (h : read_sized s = .ok (c, s2)) :
    s2.data = s.data ∧ s.pos + 4 ≤ s2.pos := by
  rw [read_sized] at h
  cases hr : read_uint32 s with
  | error e => rw [hr, exbind_err] at h; exact absurd h (by simp)
  | ok p =>
    obtain ⟨n, s1⟩ := p
    rw [hr, exbind_ok] at h
    have h1 := read_uint32_ok hr
    simp only [ByteStream.readN, Except.ok.injEq, Prod.mk.injEq] at h
    obtain ⟨hc, hs⟩ := h
    rw [← hs]
    refine ⟨h1.1, ?_⟩
    show s.pos + 4 ≤ s1.pos + (List.take n (List.drop s1.pos s1.data)).length
    omega

theorem skip_sized_ok {s : ByteStream} {s2 : ByteStream}
    (h : skip_sized s = .ok s2) :
    s2.data = s.data ∧ s.pos + 4 ≤ s2.pos := by
  rw [skip_sized] at h
  cases hr : read_uint32 s with
  | error e => rw [hr, exbind_err] at h; exact absurd h (by simp)
  | ok p =>
    obtain ⟨n, s1⟩ := p
    rw [hr, exbind_ok] at h
    have h1 := read_uint32_ok hr
    simp only [ByteStream.seek, Except.ok.injEq] at h
    rw [← h]
    refine ⟨h1.1, ?_⟩
    show s.pos + 4 ≤ s1.pos + n
    omega

theorem read_header_ok {s : ByteStream} {opE : Option OpCode}
    {fields : List (List Nat × List Nat)} {s1 : ByteStream}
    (h : read_header s opE = .ok (fields, s1)) :
    s1.data = s.data ∧ s.pos + 4 ≤ s1.pos := by
  rw [read_header] at h
  cases hr : read_sized s with
  | error e => rw [hr, exbind_err] at h; exact absurd h (by simp)
  | ok p =>
    obtain ⟨block, sb⟩ := p
    rw [hr, exbind_ok] at h
    simp only [] at h
    have h1 := read_sized_ok hr
    cases hp : parse_fields block with
    | error e => rw [hp, exbind_err] at h; exact absurd h (by simp)
    | ok flds =>
      rw [hp, exbind_ok] at h
      cases opE with
      | none =>
        simp only [Except.ok.injEq, Prod.mk.injEq] at h
        rw [← h.2]
        exact h1
      | some expected =>
        simp only [] at h
        cases hl : lookupLast flds opName with
        | none =>
          rw [hl] at h
          exact absurd h (by simp)
        | some opv =>
          rw [hl] at h
          simp only [] at h
          cases ho : OpCode.ofBytes opv with
          | none =>
            rw [ho] at h
            exact absurd h (by simp)
          | some actual =>
            rw [ho] at h
            simp only [] at h
            split at h
            · simp only [Except.ok.injEq, Prod.mk.injEq] at h
              rw [← h.2]
              exact h1
            · exact absurd h (by simp)

/-- C7: whenever `_read_chunk_info_record` succeeds, the stream it
returns has its cursor exactly where the ChunkInfo record ended — right
after the record's field block and its sized connection-counts block —
and the file contents are untouched: the cross-reference seek to the
chunk is fully undone. -/
theorem C7_chunk_info_restores_position (s : ByteStream)
    (f : List (List Nat × List Nat)) (s1 : ByteStream) (c : List Nat)
    (s2 : ByteStream) (out : Chunk × ByteStream)
    (h1 : read_header s (some .CHUNK_INFO) = .ok (f, s1))
    (h2 : read_sized s1 = .ok (c, s2))
    (h3 : read_chunk_info_record s = .ok out) :
    out.2.pos = s2.pos ∧ out.2.data = s.data := by
  rw [read_chunk_info_record] at h3
  rw [h1, exbind_ok] at h3
  simp only [] at h3
  cases hv : pyGet f verName with
  | error e => rw [hv, exbind_err] at h3; exact absurd h3 (by simp)
  | ok vb =>
  rw [hv, exbind_ok] at h3
  cases hver : decode_uint32 vb with
  | error e => rw [hver, exbind_err] at h3; exact absurd h3 (by simp)
  | ok ver =>
  rw [hver, exbind_ok] at h3
  split at h3
  case isFalse => exact absurd h3 (by simp)
  case isTrue hv1 =>
  cases hcp : pyGet f chunkPosName with
  | error e => rw [hcp, exbind_err] at h3; exact absurd h3 (by simp)
  | ok cpb =>
  rw [hcp, exbind_ok] at h3
  cases hcp2 : decode_uint64 cpb with
  | error e => rw [hcp2, exbind_err] at h3; exact absurd h3 (by simp)
  | ok cp =>
  rw [hcp2, exbind_ok] at h3
  cases hst : pyGet f startTimeName with
  | error e => rw [hst, exbind_err] at h3; exact absurd h3 (by simp)
  | ok stb =>
  rw [hst, exbind_ok] at h3
  cases hst2 : decode_time stb with
  | error e => rw [hst2, exbind_err] at h3; exact absurd h3 (by simp)
  | ok st =>
  rw [hst2, exbind_ok] at h3
  cases het : pyGet f endTimeName with
  | error e => rw [het, exbind_err] at h3; exact absurd h3 (by simp)
  | ok etb =>
  rw [het, exbind_ok] at h3
  cases het2 : decode_time etb with
  | error e => rw [het2, exbind_err] at h3; exact absurd h3 (by simp)
  | ok et =>
  rw [het2, exbind_ok] at h3
  cases hct : pyGet f countName with
  | error e => rw [hct, exbind_err] at h3; exact absurd h3 (by simp)
  | ok ctb =>
  rw [hct, exbind_ok] at h3
  cases hct2 : decode_uint32 ctb with
  | error e => rw [hct2, exbind_err] at h3; exact absurd h3 (by simp)
  | ok nconn =>
  rw [hct2, exbind_ok] at h3
  rw [h2, exbind_ok] at h3
  simp only [] at h3
  cases hpc : parse_chunk_connections nconn c with
  | error e => rw [hpc, exbind_err] at h3; exact absurd h3 (by simp)
  | ok p =>
  obtain ⟨conns, leftover⟩ := p
  rw [hpc, exbind_ok] at h3
  simp only [] at h3
  split at h3
  case isFalse => exact absurd h3 (by simp)
  case isTrue hemp =>
  cases hch : read_header (s2.seek cp) (some .CHUNK) with
  | error e => rw [hch, exbind_err] at h3; exact absurd h3 (by simp)
  | ok p2 =>
  obtain ⟨cf, s4⟩ := p2
  rw [hch, exbind_ok] at h3
  simp only [] at h3
  cases hsz : pyGet cf sizeName with
  | error e => rw [hsz, exbind_err] at h3; exact absurd h3 (by simp)
  | ok szb =>
  rw [hsz, exbind_ok] at h3
  cases hsz2 : decode_uint32 szb with
  | error e => rw [hsz2, exbind_err] at h3; exact absurd h3 (by simp)
  | ok szu =>
  rw [hsz2, exbind_ok] at h3
  cases hcb : pyGet cf compressionName with
  | error e => rw [hcb, exbind_err] at h3; exact absurd h3 (by simp)
  | ok cmb =>
  rw [hcb, exbind_ok] at h3
  cases hcm : Compression.ofBytes cmb with
  | none => rw [hcm] at h3; exact absurd h3 (by simp)
  | some compression =>
  rw [hcm] at h3
  simp only [] at h3
  cases hru : read_uint32 s4 with
  | error e => rw [hru, exbind_err] at h3; exact absurd h3 (by simp)
  | ok p3 =>
  obtain ⟨szc, s5⟩ := p3
  rw [hru, exbind_ok] at h3
  simp only [Except.ok.injEq] at h3
  have hdata : s5.data = s.data := by
    have d5 := (read_uint32_ok hru).1
    have d4 := (read_header_ok hch).1
    have d2 := (read_sized_ok h2).1
    have d1 := (read_header_ok h1).1
    rw [d5, d4]
    show s2.data = s.data
    rw [d2, d1]
  rw [← h3]
  exact ⟨rfl, hdata⟩

/-- One serialized `name=value` sub-block of a field block. -/
def fieldSub (name value : List Nat) : List Nat :=
  byteLE 4 (name.length + 1 + value.length) ++ name ++ [61] ++ value

/-- A serialized field block: total length prefix plus sub-blocks. -/
def fieldBlockBytes (fields : List (List Nat × List Nat)) : List Nat :=
  let content := (fields.map fun p => fieldSub p.1 p.2).flatten
  byteLE 4 content.length ++ content

/-- A sized block: 4-byte length prefix plus content. -/
def sizedBytes (content : List Nat) : List Nat :=
  byteLE 4 content.length ++ content

/-- A concrete container fragment: a Chunk record (45-byte field block,
compression `none`, size 0) with its 4-byte compressed-size field at
offset 45, followed at offset 49 by a ChunkInfo record (104-byte field
block pointing at chunk_pos 0, one connection) and its sized
connection-counts block ending at offset 165. -/
def c7file : List Nat :=
  fieldBlockBytes [(opName, [5]), (compressionName, [110, 111, 110, 101]),
    (sizeName, byteLE 4 0)] ++ byteLE 4 0 ++
  fieldBlockBytes [(opName, [6]), (verName, byteLE 4 1),
    (chunkPosName, byteLE 8 0),
    (startTimeName, byteLE 4 0 ++ byteLE 4 0),
    (endTimeName, byteLE 4 0 ++ byteLE 4 0),
    (countName, byteLE 4 1)] ++
  sizedBytes (byteLE 4 0 ++ byteLE 4 2)

/-- The field dict decoded from the ChunkInfo record of `c7file`. -/
def c7fields : List (List Nat × List Nat) :=
  [(opName, [6]), (verName, [1, 0, 0, 0]),
   (chunkPosName, [0, 0, 0, 0, 0, 0, 0, 0]),
   (startTimeName, [0, 0, 0, 0, 0, 0, 0, 0]),
   (endTimeName, [0, 0, 0, 0, 0, 0, 0, 0]),
   (countName, [1, 0, 0, 0])]

/-- The chunk summary decoded from `c7file`. -/
def c7chunk : Chunk :=
  ⟨0, 45, ⟨0, 0⟩, ⟨0, 0⟩, [⟨0, 2⟩], .NONE, 0, 0⟩

/-- C7 witness: on the concrete container fragment the record reads
succeed and the returned cursor is 165, the byte immediately following
the ChunkInfo record, with the file bytes unchanged. -/
theorem C7_chunk_info_restores_position_witness :
    read_header ⟨c7file, 49⟩ (some OpCode.CHUNK_INFO) =
      .ok (c7fields, ⟨c7file, 153⟩) ∧
    read_sized ⟨c7file, 153⟩ = .ok ([0, 0, 0, 0, 2, 0, 0, 0], ⟨c7file, 165⟩) ∧
    read_chunk_info_record ⟨c7file, 49⟩ = .ok (c7chunk, ⟨c7file, 165⟩) ∧
    ((c7chunk, (⟨c7file, 165⟩ : ByteStream)).2.pos =
        (⟨c7file, 165⟩ : ByteStream).pos ∧
      (c7chunk, (⟨c7file, 165⟩ : ByteStream)).2.data =
        (⟨c7file, 49⟩ : ByteStream).data) :=
  ⟨by rfl, by rfl, by rfl,
    C7_chunk_info_restores_position ⟨c7file, 49⟩ c7fields ⟨c7file, 153⟩
      [0, 0, 0, 0, 2, 0, 0, 0] ⟨c7file, 165⟩ (c7chunk, ⟨c7file, 165⟩)
      (by rfl) (by rfl) (by rfl)⟩

/-- C8: whenever `_read_index` succeeds, every connection id present in
the returned index maps to a non-empty entry list: ids whose list stayed
empty are pruned before the index is returned. -/
theorem C8_index_prunes_empty_connections (fd : List Nat)
    (conns : List ConnectionInfo) (chunks : List Chunk)
    (idx : List (Nat × List IndexEntry))
    (h : read_index fd conns chunks = .ok idx) :
    ∀ p ∈ idx, p.2 ≠ [] := by
  rw [read_index] at h
  cases hc : read_index_chunks fd chunks
      (conns.foldl (fun m c => dictSet m c.conn []) []) with
  | error e => rw [hc, exbind_err] at h; exact absurd h (by simp)
  | ok index =>
    rw [hc, exbind_ok] at h
    simp only [Except.ok.injEq] at h
    intro p hp
    rw [← h] at hp
    have hf := List.of_mem_filter hp
    simpa using hf

/-- A connection table entry with id 0 and topic `t` for test vectors. -/
def ci0 : ConnectionInfo :=
  ⟨0, [116], [116], [], [], [], none, none⟩

/-- A minimal chunk summary for the index-reading test vector: chunk
record at position 0, one connection. -/
def c8chunk : Chunk :=
  ⟨0, 0, ⟨0, 0⟩, ⟨0, 0⟩, [⟨0, 1⟩], .NONE, 0, 0⟩

/-- A minimal container for `read_index`: two empty sized blocks (the
skipped chunk record) and one IndexData record with a single
`(time (1,0), offset 0)` entry for connection 0. -/
def c8file : List Nat :=
  sizedBytes [] ++ sizedBytes [] ++
  fieldBlockBytes [(opName, [4]), (verName, byteLE 4 1),
    (connName, byteLE 4 0), (countName, byteLE 4 1)] ++
  byteLE 4 12 ++ byteLE 4 1 ++ byteLE 4 0 ++ byteLE 4 0

/-- C8 witness: on the concrete container the index read succeeds with
connection 0 holding one entry, and the theorem yields its
non-emptiness. -/
theorem C8_index_prunes_empty_connections_witness :
    read_index c8file [ci0] [c8chunk] =
      .ok [(0, [(⟨⟨1, 0⟩, 0, 0⟩ : IndexEntry)])] ∧
    ([(⟨⟨1, 0⟩, 0, 0⟩ : IndexEntry)]) ≠ [] :=
  ⟨by rfl,
    C8_index_prunes_empty_connections c8file [ci0] [c8chunk]
      [(0, [⟨⟨1, 0⟩, 0, 0⟩])] (by rfl) (0, [⟨⟨1, 0⟩, 0, 0⟩]) (by decide)⟩

/-- The chunk summary used by the fetch test vectors: record position
100, data at file offset 0, uncompressed. -/
def cFetchChunk : Chunk :=
  ⟨100, 0, ⟨0, 0⟩, ⟨0, 0⟩, [⟨0, 1⟩], .NONE, 0, 0⟩

/-- Decompressed chunk content for C5: a single MessageData record
(conn 0, time (5,6)) followed by its sized 2-byte payload 42,43. -/
def c5chunkBytes : List Nat :=
  fieldBlockBytes [(opName, [2]), (connName, byteLE 4 0),
    (timeName, byteLE 4 5 ++ byteLE 4 6)] ++ sizedBytes [42, 43]

/-- The reader state for the C5 fetch test. -/
def c5model : BagReaderModel :=
  ⟨sizedBytes c5chunkBytes, [ci0], [cFetchChunk]⟩

/-- Chunk content holding a record with opcode 7 (CONNECTION_INFO — as
produced by flipping a MessageData opcode byte), its sized payload,
then a well-formed MessageData record (conn 0, time (7,8)).  Used by
both the C5 and C9 evaluations of the connection-skip path. -/
def cSkipChunkBytes : List Nat :=
  fieldBlockBytes [(opName, [7]), (connName, byteLE 4 0),
    (timeName, byteLE 4 5 ++ byteLE 4 6)] ++ sizedBytes [9, 9, 9] ++
  fieldBlockBytes [(opName, [2]), (connName, byteLE 4 0),
    (timeName, byteLE 4 7 ++ byteLE 4 8)] ++ sizedBytes [1]

/-- A reader state whose only chunk starts with the opcode-7 record;
the file ends right after the chunk payload, so the file cursor is at
EOF when the scan begins. -/
def cSkipModel : BagReaderModel :=
  ⟨sizedBytes cSkipChunkBytes, [ci0], [cFetchChunk]⟩

/-- C5: resolving an index entry stops at the first MessageData record
but returns only the connection's topic and the record time; the
record's sized payload bytes (42, 43 in the first container) are
never read and are absent from the result — `BagMessage` has no
payload field and the code marks payload reading as a TODO.  Moreover
the claimed skipping of preceding ConnectionInfo records is broken:
`_skip_sized(bfr)` reads the skip length from the backing file (at EOF
here), so on the second container — where the claim demands the leading
connection record be skipped and the following MessageData returned —
resolve fails with a truncated read. -/
theorem C5_fetch_returns_no_payload :
    fetch_message_data_record c5model 100 0 = .ok ⟨[116], ⟨5, 6⟩⟩ ∧
    fetch_message_data_record cSkipModel 100 0 = .error .truncated :=
  ⟨by rfl, by rfl⟩

/-- C9 counterexample: flipping a MessageData opcode byte to
CONNECTION_INFO does NOT make resolve fail with an unexpected-opcode
error naming both kinds: the scan takes the connection-skip path, whose
`_skip_sized(bfr)` reads the skip length from the backing file stream —
here at EOF — so resolve fails with a truncated read instead. -/
theorem C9_counterexample_flip_to_connection_info :
    OpCode.ofBytes [7] = some OpCode.CONNECTION_INFO ∧
    fetch_message_data_record cSkipModel 100 0 = .error .truncated ∧
    .error .truncated ≠
      (.error (.unexpectedOpcode .MESSAGE_DATA .CONNECTION_INFO) :
        Except BagError BagMessage) := by
  refine ⟨rfl, by rfl, ?_⟩
  intro hcon
  simp at hcon

theorem ofBytes_value {l : List Nat} {c : OpCode}
    (h : OpCode.ofBytes l = some c) : l = c.value := by
  unfold OpCode.ofBytes at h
  split at h
  all_goals first
    | (injection h with h2; subst h2; rfl)
    | exact Option.noConfusion h

theorem opcode_value_inj : ∀ {a b : OpCode}, a.value = b.value → a = b := by
  intro a b h
  cases a <;> cases b <;> simp_all [OpCode.value, OpCode.byte]

/-- C9 (amended): decoding a field block with an expected opcode fails
with an error carrying both the expected and the actual opcode whenever
the decoded `op` field is a valid opcode different from the expected
one; during resolve — where the field block is decoded without an
expected opcode — a record whose opcode is neither CONNECTION_INFO nor
MESSAGE_DATA fails, for every file-stream state, with an error carrying
MESSAGE_DATA and the actual opcode.  A CONNECTION_INFO opcode instead
takes the connection-skip path and produces no unexpected-opcode
error (at the counterexample input it fails with a truncated read,
since the skip length is read from the backing file stream). -/
theorem C9_unexpected_opcode_names_both :
    (∀ (s : ByteStream) (expected : OpCode) (block : List Nat)
        (sb : ByteStream) (fields : List (List Nat × List Nat))
        (opv : List Nat) (actual : OpCode),
      read_sized s = .ok (block, sb) →
      parse_fields block = .ok fields →
      lookupLast fields opName = some opv →
      OpCode.ofBytes opv = some actual →
      actual ≠ expected →
      read_header s (some expected) =
        .error (.unexpectedOpcode expected actual)) ∧
    (∀ (fp bfr : ByteStream) (fields : List (List Nat × List Nat))
        (b1 : ByteStream) (opv : List Nat) (op : OpCode),
      read_header bfr none = .ok (fields, b1) →
      pyGet fields opName = .ok opv →
      OpCode.ofBytes opv = some op →
      op ≠ .CONNECTION_INFO →
      op ≠ .MESSAGE_DATA →
      scan_message fp bfr = .error (.unexpectedOpcode .MESSAGE_DATA op)) := by
  constructor
  · intro s expected block sb fields opv actual h1 h2 h3 h4 h5
    rw [read_header, h1, exbind_ok]
    simp only []
    rw [h2, exbind_ok]
    rw [h3]
    simp only []
    rw [h4]
    simp only []
    rw [if_neg]
    intro hveq
    rw [ofBytes_value h4] at hveq
    exact h5 (opcode_value_inj hveq)
  · intro fp bfr fields b1 opv op h1 h2 h3 h4 h5
    rw [scan_message, scan_message_aux, h1, exbind_ok]
    simp only []
    rw [h2, exbind_ok, h3]
    simp only []
    rw [if_neg (by simpa using h4), if_neg (by simpa using h5)]

/-- C9 witness: a field block whose opcode is CHUNK read with expected
MESSAGE_DATA fails naming both, and a record with opcode INDEX_DATA
encountered by the resolve scan (here with an empty file stream) fails
naming MESSAGE_DATA and INDEX_DATA. -/
theorem C9_unexpected_opcode_names_both_witness :
    read_header ⟨fieldBlockBytes [(opName, [5])], 0⟩ (some OpCode.MESSAGE_DATA) =
      .error (.unexpectedOpcode .MESSAGE_DATA .CHUNK) ∧
    scan_message ⟨[], 0⟩ ⟨fieldBlockBytes [(opName, [4])], 0⟩ =
      .error (.unexpectedOpcode .MESSAGE_DATA .INDEX_DATA) :=
  ⟨C9_unexpected_opcode_names_both.1 ⟨fieldBlockBytes [(opName, [5])], 0⟩
      .MESSAGE_DATA [4, 0, 0, 0, 111, 112, 61, 5]
      ⟨fieldBlockBytes [(opName, [5])], 12⟩ [(opName, [5])] [5] .CHUNK
      (by rfl) (by rfl) (by rfl) (by rfl) (by decide),
    C9_unexpected_opcode_names_both.2 ⟨[], 0⟩
      ⟨fieldBlockBytes [(opName, [4])], 0⟩
      [(opName, [4])] ⟨fieldBlockBytes [(opName, [4])], 12⟩ [4] .INDEX_DATA
      (by rfl) (by rfl) (by rfl) (by decide) (by decide)⟩

end Roswire
